import Mathlib

/-
Verification of the Metropolis-Hastings random walk sampler
(metropolishastingsrandomwalksampler.py).

Shallow embedding conventions:
  - Node identifiers are naturals; a graph stores its node count `n`
    (nodes are 0 .. n-1, as in the driver's networkx graphs) and a finite
    set of undirected edges given as ordered pairs; adjacency symmetrizes
    the pair set, matching an undirected networkx graph.
  - The Python `random` module's stream is modelled as a list of rationals
    in [0, 1): `random.uniform(0, 1)` takes the next value directly, and a
    uniform choice from a list of length k takes the next value q and picks
    index floor(q * k).  Draw order in the model follows the source's call
    order exactly (in `_do_a_step` the score is drawn first, before the
    neighbor check and the candidate draw).
  - The float exponent `alpha` is modelled as a natural-number exponent on
    an exact rational degree ratio (exact rational powers need a natural
    exponent; the source default is 1.0 and the spec's distinguished case
    is alpha = 0).
  - The `while` loop of `sample` can diverge in the source (for example
    when `max_stucking_iter <= 0` and growth stops), so the loop is given
    explicit fuel and returns `none` exactly when the source would still
    be looping after that many iterations.
  - Python exceptions become an `Except` error type.
-/

namespace MHRW

/-- Undirected graph on nodes 0 .. n-1 with a finite edge-pair set. -/
structure FinGraph where
  n : ℕ
  edges : Finset (ℕ × ℕ)
  deriving DecidableEq

/-- Adjacency: the unordered edge is present in either orientation. -/
def hasEdge (g : FinGraph) (u v : ℕ) : Prop :=
  (u, v) ∈ g.edges ∨ (v, u) ∈ g.edges

instance (g : FinGraph) (u v : ℕ) : Decidable (hasEdge g u v) := by
  unfold hasEdge; infer_instance

/-- Neighbor list of `u`: in-range nodes adjacent to `u`
(source: `list(nx.neighbors(graph, node))`). -/
def neighborList (g : FinGraph) (u : ℕ) : List ℕ :=
  (List.range g.n).filter (fun v => decide (hasEdge g u v))

/-- Degree of a node (source: `self.backend.get_degree`, the number of
neighbors in an undirected networkx graph). -/
def degree (g : FinGraph) (u : ℕ) : ℕ :=
  (neighborList g u).length

/-- Take the next value of the random stream (empty stream pads with 0;
claims only ever consume from the supplied prefix). -/
def draw : List ℚ → ℚ × List ℚ
  | [] => (0, [])
  | a :: t => (a, t)

/-- Uniform choice from a list, driven by one stream value q in [0,1):
index floor(q * length).  Models `random.choice` /
`self.backend.get_random_neighbor`. -/
def pick (l : List ℕ) (q : ℚ) : ℕ :=
  l.getD (Int.toNat ⌊q * (l.length : ℚ)⌋) 0

/-- Mutable walker state: `self._current_node` and `self._sampled_nodes`. -/
structure WalkState where
  current : ℕ
  visited : Finset ℕ
  deriving DecidableEq

/-- Errors surfaced by `sample` (Python `ValueError` for the two
validation failures, `IndexError` for `random.choice` on an empty range). -/
inductive SampleError where
  | invalidConfiguration
  | outOfRange
  | indexError
  deriving DecidableEq

/-- The candidate neighbor of a step: the source draws the score first
(stream position 0) and the candidate second (stream position 1). -/
def stepCandidate (g : FinGraph) (st : WalkState) (rng : List ℚ) : ℕ :=
  pick (neighborList g st.current) (draw (draw rng).2).1

/-- The acceptance threshold of `_do_a_step`:
`(degree(current)/degree(candidate)) ** alpha` as an exact rational. -/
def acceptThreshold (g : FinGraph) (alpha : ℕ) (u v : ℕ) : ℚ :=
  ((degree g u : ℚ) / (degree g v : ℚ)) ^ alpha

/-- One step of `_do_a_step`: the score is drawn first; if the current
node has no neighbors the step returns (having consumed the score);
otherwise the candidate is drawn and the move is accepted iff
`score < threshold`, updating current node and sampled set. -/
def doAStep (g : FinGraph) (alpha : ℕ) (st : WalkState) (rng : List ℚ) :
    WalkState × List ℚ :=
  if (neighborList g st.current).length = 0 then
    (st, (draw rng).2)
  else if (draw rng).1 < acceptThreshold g alpha st.current (stepCandidate g st rng) then
    (⟨stepCandidate g st rng, insert (stepCandidate g st rng) st.visited⟩,
      (draw (draw rng).2).2)
  else
    (st, (draw (draw rng).2).2)

/-- `_create_initial_node_set`: explicit start node validated against
`[0, node_count)`, otherwise a uniform choice from `range(node_count)`
(which in Python raises IndexError when the range is empty). -/
def createInitialNodeSet (g : FinGraph) (startNode : Option ℤ) (rng : List ℚ) :
    Except SampleError (WalkState × List ℚ) :=
  match startNode with
  | some s =>
      if 0 ≤ s ∧ s < (g.n : ℤ) then
        .ok (⟨s.toNat, {s.toNat}⟩, rng)
      else
        .error .outOfRange
  | none =>
      if g.n = 0 then
        .error .indexError
      else
        .ok (⟨pick (List.range g.n) (draw rng).1,
              {pick (List.range g.n) (draw rng).1}⟩, (draw rng).2)

/-- The `while` loop of `sample`, with explicit fuel.  Each iteration:
check `len(sampled) < number_of_nodes`, do a step, compare the sampled-set
size before and after; on no growth increment the stall counter and break
(returning `true` for a stalled exit) exactly when it equals
`maxStall`; on growth reset the counter to 0.  A normal exit (target
reached) returns `false`. -/
def sampleLoop (g : FinGraph) (target alpha maxStall : ℕ) :
    ℕ → WalkState → ℕ → List ℚ → Option (WalkState × Bool)
  | 0, _, _, _ => none
  | fuel + 1, st, stall, rng =>
    if st.visited.card < target then
      if (doAStep g alpha st rng).1.visited.card = st.visited.card then
        if stall + 1 = maxStall then
          some ((doAStep g alpha st rng).1, true)
        else
          sampleLoop g target alpha maxStall fuel (doAStep g alpha st rng).1
            (stall + 1) (doAStep g alpha st rng).2
      else
        sampleLoop g target alpha maxStall fuel (doAStep g alpha st rng).1
          0 (doAStep g alpha st rng).2
    else
      some (st, false)

/-- Result graph: a node set together with the edge pairs kept from the
original graph. -/
structure SubGraph where
  nodes : Finset ℕ
  edges : Finset (ℕ × ℕ)
  deriving DecidableEq

/-- Modelled from the spec: `induced_subgraph(graph, node_set)` (the
backend `get_subgraph`, whose code is not under src/) returns a new graph
containing exactly those nodes and the edges between them present in the
original. -/
def inducedSubgraph (g : FinGraph) (s : Finset ℕ) : SubGraph :=
  ⟨s, g.edges.filter (fun e => e.1 ∈ s ∧ e.2 ∈ s)⟩

/-- `sample`: validate the configuration (modelled from the spec:
`_check_number_of_nodes`, whose code is not under src/, fails iff
`target_node_count > node_count(graph)`), initialize the walker state,
run the loop, and return the induced subgraph of the sampled node set
together with whether the exit was a stall.  `none` inside `.ok` means
the fuel ran out, i.e. the source loop would still be running. -/
def sample (g : FinGraph) (target alpha maxStall fuel : ℕ)
    (startNode : Option ℤ) (rng : List ℚ) :
    Except SampleError (Option (SubGraph × Bool)) :=
  if target > g.n then
    .error .invalidConfiguration
  else
    match createInitialNodeSet g startNode rng with
    | .error e => .error e
    | .ok (st, rng') =>
        match sampleLoop g target alpha maxStall fuel st 0 rng' with
        | none => .ok none
        | some (st', stalled) =>
            .ok (some (inducedSubgraph g st'.visited, stalled))

/-- The sequence of sampled-node sets observed after each loop iteration. -/
def sampleLoopTrace (g : FinGraph) (target alpha maxStall : ℕ) :
    ℕ → WalkState → ℕ → List ℚ → List (Finset ℕ)
  | 0, _, _, _ => []
  | fuel + 1, st, stall, rng =>
    if st.visited.card < target then
      if (doAStep g alpha st rng).1.visited.card = st.visited.card then
        if stall + 1 = maxStall then
          [(doAStep g alpha st rng).1.visited]
        else
          (doAStep g alpha st rng).1.visited ::
            sampleLoopTrace g target alpha maxStall fuel (doAStep g alpha st rng).1
              (stall + 1) (doAStep g alpha st rng).2
      else
        (doAStep g alpha st rng).1.visited ::
          sampleLoopTrace g target alpha maxStall fuel (doAStep g alpha st rng).1
            0 (doAStep g alpha st rng).2
    else
      []

/-- The visited-set sequence of a whole `sample` call: the initial
singleton followed by the per-iteration sets. -/
def sampleVisitedTrace (g : FinGraph) (target alpha maxStall fuel : ℕ)
    (startNode : Option ℤ) (rng : List ℚ) : List (Finset ℕ) :=
  match createInitialNodeSet g startNode rng with
  | .error _ => []
  | .ok (st, rng') =>
      st.visited :: sampleLoopTrace g target alpha maxStall fuel st 0 rng'

/-- A stream of values in [0, 1), the contract of the random source. -/
def ValidStream (rng : List ℚ) : Prop := ∀ q ∈ rng, 0 ≤ q ∧ q < 1

instance : DecidablePred ValidStream := by
  unfold ValidStream; infer_instance

/-- Concrete two-node graph with the single edge 0-1, used as a witness
input. -/
def gPath : FinGraph := ⟨2, {(0, 1)}⟩

/-- Concrete two-node graph with no edges: every node is isolated. -/
def gIso : FinGraph := ⟨2, (∅ : Finset (ℕ × ℕ))⟩

/-
Basic lemmas about the stream and the step function.
-/

lemma draw_snd (rng : List ℚ) : (draw rng).2 = rng.drop 1 := by
  cases rng <;> rfl

lemma doAStep_isolated (g : FinGraph) (alpha : ℕ) (st : WalkState) (rng : List ℚ)
    (h : (neighborList g st.current).length = 0) :
    doAStep g alpha st rng = (st, (draw rng).2) := by
  unfold doAStep
  rw [if_pos h]

lemma doAStep_accept (g : FinGraph) (alpha : ℕ) (st : WalkState) (rng : List ℚ)
    (hne : ¬ (neighborList g st.current).length = 0)
    (hacc : (draw rng).1 < acceptThreshold g alpha st.current (stepCandidate g st rng)) :
    doAStep g alpha st rng =
      (⟨stepCandidate g st rng, insert (stepCandidate g st rng) st.visited⟩,
        (draw (draw rng).2).2) := by
  unfold doAStep
  rw [if_neg hne, if_pos hacc]

lemma doAStep_reject (g : FinGraph) (alpha : ℕ) (st : WalkState) (rng : List ℚ)
    (hne : ¬ (neighborList g st.current).length = 0)
    (hrej : ¬ (draw rng).1 < acceptThreshold g alpha st.current (stepCandidate g st rng)) :
    doAStep g alpha st rng = (st, (draw (draw rng).2).2) := by
  unfold doAStep
  rw [if_neg hne, if_neg hrej]

lemma doAStep_visited_subset (g : FinGraph) (alpha : ℕ) (st : WalkState) (rng : List ℚ) :
    st.visited ⊆ (doAStep g alpha st rng).1.visited := by
  unfold doAStep
  split_ifs <;> simp [Finset.subset_insert]

lemma doAStep_current_mem (g : FinGraph) (alpha : ℕ) (st : WalkState) (rng : List ℚ)
    (h : st.current ∈ st.visited) :
    (doAStep g alpha st rng).1.current ∈ (doAStep g alpha st rng).1.visited := by
  unfold doAStep
  split_ifs <;> simp [h]

/-
One-iteration unfolding lemmas for the sampling loop.
-/

lemma sampleLoop_done (g : FinGraph) (target alpha maxStall fuel stall : ℕ)
    (st : WalkState) (rng : List ℚ) (h : ¬ st.visited.card < target) :
    sampleLoop g target alpha maxStall (fuel + 1) st stall rng = some (st, false) := by
  rw [sampleLoop, if_neg h]

lemma sampleLoop_stall_break (g : FinGraph) (target alpha maxStall fuel stall : ℕ)
    (st : WalkState) (rng : List ℚ) (h1 : st.visited.card < target)
    (h2 : (doAStep g alpha st rng).1.visited.card = st.visited.card)
    (h3 : stall + 1 = maxStall) :
    sampleLoop g target alpha maxStall (fuel + 1) st stall rng =
      some ((doAStep g alpha st rng).1, true) := by
  rw [sampleLoop, if_pos h1, if_pos h2, if_pos h3]

lemma sampleLoop_stall_continue (g : FinGraph) (target alpha maxStall fuel stall : ℕ)
    (st : WalkState) (rng : List ℚ) (h1 : st.visited.card < target)
    (h2 : (doAStep g alpha st rng).1.visited.card = st.visited.card)
    (h3 : ¬ stall + 1 = maxStall) :
    sampleLoop g target alpha maxStall (fuel + 1) st stall rng =
      sampleLoop g target alpha maxStall fuel (doAStep g alpha st rng).1 (stall + 1)
        (doAStep g alpha st rng).2 := by
  rw [sampleLoop, if_pos h1, if_pos h2, if_neg h3]

lemma sampleLoop_grow (g : FinGraph) (target alpha maxStall fuel stall : ℕ)
    (st : WalkState) (rng : List ℚ) (h1 : st.visited.card < target)
    (h2 : ¬ (doAStep g alpha st rng).1.visited.card = st.visited.card) :
    sampleLoop g target alpha maxStall (fuel + 1) st stall rng =
      sampleLoop g target alpha maxStall fuel (doAStep g alpha st rng).1 0
        (doAStep g alpha st rng).2 := by
  rw [sampleLoop, if_pos h1, if_neg h2]

/-
Concrete evaluations on the witness graph gPath with an all-zero stream
(the rational operations behind the threshold are irreducible for the
kernel, so these are established with simp and norm_num once and reused).
-/

lemma neighborList_gPath_zero : neighborList gPath 0 = [1] := by decide

lemma degree_gPath_zero : degree gPath 0 = 1 := by decide

lemma degree_gPath_one : degree gPath 1 = 1 := by decide

lemma stepCandidate_gPath_eval : stepCandidate gPath ⟨0, {0}⟩ [0, 0] = 1 := by
  show pick (neighborList gPath 0) (0 : ℚ) = 1
  rw [neighborList_gPath_zero]
  simp [pick]

lemma acceptThreshold_gPath_eval (alpha : ℕ) : acceptThreshold gPath alpha 0 1 = 1 := by
  unfold acceptThreshold
  rw [degree_gPath_zero, degree_gPath_one]
  norm_num

lemma doAStep_gPath_eval : doAStep gPath 1 ⟨0, {0}⟩ [0, 0] = (⟨1, {1, 0}⟩, []) := by
  have hacc : (draw [(0 : ℚ), 0]).1 <
      acceptThreshold gPath 1 (WalkState.mk 0 {0}).current
        (stepCandidate gPath ⟨0, {0}⟩ [0, 0]) := by
    show (0 : ℚ) < acceptThreshold gPath 1 0 (stepCandidate gPath ⟨0, {0}⟩ [0, 0])
    rw [stepCandidate_gPath_eval, acceptThreshold_gPath_eval]
    norm_num
  rw [doAStep_accept gPath 1 ⟨0, {0}⟩ [0, 0] (by decide) hacc, stepCandidate_gPath_eval]
  rfl

/-- C1: when the current node has at least one neighbor, the step draws a
score (stream position 0) and a candidate neighbor (stream position 1);
the move is accepted iff `score < (degree current / degree candidate) ^
alpha`; on acceptance the current node becomes the candidate and the
candidate is inserted into the visited set (inserting an already-visited
node leaves the set unchanged); on rejection current node and visited set
are unchanged. -/
theorem step_accept_reject_semantics (g : FinGraph) (alpha : ℕ) (st : WalkState)
    (rng : List ℚ) (hne : (neighborList g st.current).length ≠ 0) :
    ((draw rng).1 < acceptThreshold g alpha st.current (stepCandidate g st rng) →
        doAStep g alpha st rng =
          (⟨stepCandidate g st rng, insert (stepCandidate g st rng) st.visited⟩,
            (draw (draw rng).2).2)) ∧
    (¬ (draw rng).1 < acceptThreshold g alpha st.current (stepCandidate g st rng) →
        doAStep g alpha st rng = (st, (draw (draw rng).2).2)) ∧
    (stepCandidate g st rng ∈ st.visited →
        insert (stepCandidate g st rng) st.visited = st.visited) :=
  ⟨fun h => doAStep_accept g alpha st rng hne h,
   fun h => doAStep_reject g alpha st rng hne h,
   fun h => Finset.insert_eq_self.mpr h⟩

theorem step_accept_reject_semantics_witness :
    doAStep gPath 1 ⟨0, {0}⟩ [0, 0] =
      (⟨stepCandidate gPath ⟨0, {0}⟩ [0, 0],
        insert (stepCandidate gPath ⟨0, {0}⟩ [0, 0]) ({0} : Finset ℕ)⟩,
        (draw (draw [0, 0]).2).2) :=
  (step_accept_reject_semantics gPath 1 ⟨0, {0}⟩ [0, 0] (by decide)).1
    (by show (0 : ℚ) < acceptThreshold gPath 1 0 (stepCandidate gPath ⟨0, {0}⟩ [0, 0])
        rw [stepCandidate_gPath_eval, acceptThreshold_gPath_eval]
        norm_num)

/-- C7: when the current node has neighbors and the stream is valid
(values in [0,1)), the drawn score is below 1, so whenever the computed
threshold `(d_cur/d_cand)^alpha` is at least 1 the move is accepted; in
particular `alpha = 0` forces the threshold to 1. -/
theorem high_threshold_always_accepts (g : FinGraph) (alpha : ℕ) (st : WalkState)
    (rng : List ℚ) (hv : ValidStream rng)
    (hne : (neighborList g st.current).length ≠ 0) :
    (1 ≤ acceptThreshold g alpha st.current (stepCandidate g st rng) →
        doAStep g alpha st rng =
          (⟨stepCandidate g st rng, insert (stepCandidate g st rng) st.visited⟩,
            (draw (draw rng).2).2)) ∧
    (alpha = 0 → acceptThreshold g alpha st.current (stepCandidate g st rng) = 1) ∧
    (draw rng).1 < 1 := by
  have hs : (draw rng).1 < 1 := by
    cases rng with
    | nil => norm_num [draw]
    | cons a t => exact (hv a (List.mem_cons_self a t)).2
  refine ⟨fun h1 => doAStep_accept g alpha st rng hne (lt_of_lt_of_le hs h1),
    fun h0 => ?_, hs⟩
  subst h0
  simp [acceptThreshold]

theorem high_threshold_always_accepts_witness :
    doAStep gPath 0 ⟨0, {0}⟩ [0, 0] =
      (⟨stepCandidate gPath ⟨0, {0}⟩ [0, 0],
        insert (stepCandidate gPath ⟨0, {0}⟩ [0, 0]) ({0} : Finset ℕ)⟩,
        (draw (draw [0, 0]).2).2) :=
  (high_threshold_always_accepts gPath 0 ⟨0, {0}⟩ [0, 0] (by decide) (by decide)).1
    (by rw [stepCandidate_gPath_eval]
        show (1 : ℚ) ≤ acceptThreshold gPath 0 0 1
        rw [acceptThreshold_gPath_eval])

/-- C8 counterexample: in `_do_a_step` the score is drawn before the
zero-neighbor check, so a step taken at a node with zero neighbors does
consume a random value: on the isolated node 0 of gIso the stream shrinks
from one value to none, refuting "a step taken at a node with zero
neighbors draws no random values". -/
theorem step_draw_order_counterexample :
    (neighborList gIso (WalkState.mk 0 {0}).current).length = 0 ∧
    (doAStep gIso 1 ⟨0, {0}⟩ [(0 : ℚ)]).2 ≠ [(0 : ℚ)] := by decide

/-- C8 amended: within every step the score is drawn first; the
zero-neighbor check comes second and, when it fires, the step is a no-op
on the walker state but has consumed exactly one random value; only in
the non-isolated case is the candidate drawn afterwards, for a total of
two consumed values. -/
theorem step_rng_consumption (g : FinGraph) (alpha : ℕ) (st : WalkState)
    (rng : List ℚ) :
    ((neighborList g st.current).length = 0 →
        doAStep g alpha st rng = (st, rng.drop 1)) ∧
    (doAStep g alpha st rng).2 =
      rng.drop (if (neighborList g st.current).length = 0 then 1 else 2) := by
  have h2 : (draw (draw rng).2).2 = rng.drop 2 := by
    rw [draw_snd, draw_snd, List.drop_drop]
  constructor
  · intro h
    rw [doAStep_isolated g alpha st rng h, draw_snd]
  · by_cases h : (neighborList g st.current).length = 0
    · rw [doAStep_isolated g alpha st rng h, if_pos h, draw_snd]
    · rw [if_neg h]
      unfold doAStep
      rw [if_neg h]
      split_ifs <;> simpa using h2

theorem step_rng_consumption_witness :
    doAStep gIso 1 ⟨0, {0}⟩ [(0 : ℚ)] = (⟨0, {0}⟩, List.drop 1 [(0 : ℚ)]) :=
  (step_rng_consumption gIso 1 ⟨0, {0}⟩ [(0 : ℚ)]).1 (by decide)

/-
Loop invariants: the visited set only grows and the current node stays
inside it.
-/

lemma sampleLoop_invariant (g : FinGraph) (target alpha maxStall : ℕ) :
    ∀ fuel (st : WalkState) (stall : ℕ) (rng : List ℚ) (st' : WalkState) (b : Bool),
      sampleLoop g target alpha maxStall fuel st stall rng = some (st', b) →
      st.visited ⊆ st'.visited ∧
        (st.current ∈ st.visited → st'.current ∈ st'.visited) := by
  intro fuel
  induction fuel with
  | zero =>
      intro st stall rng st' b h
      exact absurd h (by simp [sampleLoop])
  | succ f ih =>
      intro st stall rng st' b h
      by_cases h1 : st.visited.card < target
      · by_cases h2 : (doAStep g alpha st rng).1.visited.card = st.visited.card
        · by_cases h3 : stall + 1 = maxStall
          · rw [sampleLoop_stall_break g target alpha maxStall f stall st rng h1 h2 h3] at h
            obtain ⟨h4, h5⟩ := Prod.mk.injEq .. ▸ Option.some.inj h
            subst h4
            exact ⟨doAStep_visited_subset g alpha st rng,
              fun hc => doAStep_current_mem g alpha st rng hc⟩
          · rw [sampleLoop_stall_continue g target alpha maxStall f stall st rng h1 h2 h3] at h
            have hrec := ih (doAStep g alpha st rng).1 (stall + 1) (doAStep g alpha st rng).2
              st' b h
            exact ⟨(doAStep_visited_subset g alpha st rng).trans hrec.1,
              fun hc => hrec.2 (doAStep_current_mem g alpha st rng hc)⟩
        · rw [sampleLoop_grow g target alpha maxStall f stall st rng h1 h2] at h
          have hrec := ih (doAStep g alpha st rng).1 0 (doAStep g alpha st rng).2 st' b h
          exact ⟨(doAStep_visited_subset g alpha st rng).trans hrec.1,
            fun hc => hrec.2 (doAStep_current_mem g alpha st rng hc)⟩
      · rw [sampleLoop_done g target alpha maxStall f stall st rng h1] at h
        obtain ⟨h4, h5⟩ := Prod.mk.injEq .. ▸ Option.some.inj h
        subst h4
        exact ⟨Finset.Subset.refl _, id⟩

/-- C3: the visited set is monotonically non-decreasing across steps
(each single step only inserts, and any terminating run of the loop ends
with a superset of the initial visited set), and the current node belongs
to the visited set at every observation point: membership is preserved by
every single step and by the whole loop. -/
theorem visited_monotone_current_in_visited (g : FinGraph)
    (target alpha maxStall : ℕ) :
    (∀ (st : WalkState) (rng : List ℚ),
        st.visited ⊆ (doAStep g alpha st rng).1.visited) ∧
    (∀ (st : WalkState) (rng : List ℚ), st.current ∈ st.visited →
        (doAStep g alpha st rng).1.current ∈ (doAStep g alpha st rng).1.visited) ∧
    (∀ (fuel : ℕ) (st : WalkState) (stall : ℕ) (rng : List ℚ) (st' : WalkState)
        (b : Bool),
        sampleLoop g target alpha maxStall fuel st stall rng = some (st', b) →
        st.visited ⊆ st'.visited ∧
          (st.current ∈ st.visited → st'.current ∈ st'.visited)) :=
  ⟨fun st rng => doAStep_visited_subset g alpha st rng,
   fun st rng h => doAStep_current_mem g alpha st rng h,
   fun fuel st stall rng st' b h =>
     sampleLoop_invariant g target alpha maxStall fuel st stall rng st' b h⟩

theorem visited_monotone_current_in_visited_witness :
    (WalkState.mk 0 {0}).visited ⊆ (doAStep gIso 1 ⟨0, {0}⟩ [(0 : ℚ)]).1.visited ∧
    (doAStep gIso 1 ⟨0, {0}⟩ [(0 : ℚ)]).1.current ∈
      (doAStep gIso 1 ⟨0, {0}⟩ [(0 : ℚ)]).1.visited :=
  ⟨(visited_monotone_current_in_visited gIso 2 1 5).1 ⟨0, {0}⟩ [(0 : ℚ)],
   (visited_monotone_current_in_visited gIso 2 1 5).2.1 ⟨0, {0}⟩ [(0 : ℚ)] (by decide)⟩

/-
Computing `sample` from the outcomes of its parts.
-/

lemma sample_eq_of_loop (g : FinGraph) (target alpha maxStall fuel : ℕ)
    (startNode : Option ℤ) (rng : List ℚ) (st0 : WalkState) (rng0 : List ℚ)
    (st' : WalkState) (b : Bool) (hT : ¬ target > g.n)
    (hinit : createInitialNodeSet g startNode rng = .ok (st0, rng0))
    (hloop : sampleLoop g target alpha maxStall fuel st0 0 rng0 = some (st', b)) :
    sample g target alpha maxStall fuel startNode rng =
      .ok (some (inducedSubgraph g st'.visited, b)) := by
  unfold sample
  rw [if_neg hT, hinit]
  dsimp only
  rw [hloop]

/-- C2: one iteration of the sampling loop, entered while the target is
not reached: when the visited-set size did not grow the stall counter is
incremented and the run terminates with a stalled exit exactly when the
incremented counter equals `maxStall` (the size comparison is the sole
stall signal, so an accepted move to an already-visited node also lands
in this branch); when the size grew the counter is reset to 0; and a
stalled run still returns the induced subgraph of the visited set through
`sample` rather than an error. -/
theorem stall_counter_semantics (g : FinGraph)
    (target alpha maxStall fuel stall : ℕ) (st : WalkState) (rng : List ℚ)
    (hrun : st.visited.card < target) :
    (((doAStep g alpha st rng).1.visited.card = st.visited.card ∧
        stall + 1 = maxStall) →
      sampleLoop g target alpha maxStall (fuel + 1) st stall rng =
        some ((doAStep g alpha st rng).1, true)) ∧
    (((doAStep g alpha st rng).1.visited.card = st.visited.card ∧
        ¬ stall + 1 = maxStall) →
      sampleLoop g target alpha maxStall (fuel + 1) st stall rng =
        sampleLoop g target alpha maxStall fuel (doAStep g alpha st rng).1
          (stall + 1) (doAStep g alpha st rng).2) ∧
    ((doAStep g alpha st rng).1.visited.card ≠ st.visited.card →
      sampleLoop g target alpha maxStall (fuel + 1) st stall rng =
        sampleLoop g target alpha maxStall fuel (doAStep g alpha st rng).1
          0 (doAStep g alpha st rng).2) ∧
    (∀ (startNode : Option ℤ) (rngA rngB : List ℚ) (st0 st'' : WalkState),
        target ≤ g.n →
        createInitialNodeSet g startNode rngA = .ok (st0, rngB) →
        sampleLoop g target alpha maxStall fuel st0 0 rngB = some (st'', true) →
        sample g target alpha maxStall fuel startNode rngA =
          .ok (some (inducedSubgraph g st''.visited, true))) :=
  ⟨fun h => sampleLoop_stall_break g target alpha maxStall fuel stall st rng hrun h.1 h.2,
   fun h => sampleLoop_stall_continue g target alpha maxStall fuel stall st rng hrun h.1 h.2,
   fun h => sampleLoop_grow g target alpha maxStall fuel stall st rng hrun h,
   fun startNode rngA rngB st0 st'' hT hinit hloop =>
     sample_eq_of_loop g target alpha maxStall fuel startNode rngA st0 rngB st'' true
       (by omega) hinit hloop⟩

theorem stall_counter_semantics_witness :
    sampleLoop gPath 2 1 5 (2 + 1) ⟨0, {0}⟩ 0 [0, 0] =
      sampleLoop gPath 2 1 5 2 (doAStep gPath 1 ⟨0, {0}⟩ [0, 0]).1 0
        (doAStep gPath 1 ⟨0, {0}⟩ [0, 0]).2 :=
  (stall_counter_semantics gPath 2 1 5 2 0 ⟨0, {0}⟩ [0, 0] (by decide)).2.2.1
    (by rw [doAStep_gPath_eval]; decide)

lemma createInitialNodeSet_some (g : FinGraph) (s : ℤ) (rng : List ℚ) :
    createInitialNodeSet g (some s) rng =
      if 0 ≤ s ∧ s < (g.n : ℤ) then .ok (⟨s.toNat, {s.toNat}⟩, rng)
      else .error .outOfRange := rfl

lemma createInitialNodeSet_none (g : FinGraph) (rng : List ℚ) :
    createInitialNodeSet g none rng =
      if g.n = 0 then .error .indexError
      else .ok (⟨pick (List.range g.n) (draw rng).1,
        {pick (List.range g.n) (draw rng).1}⟩, (draw rng).2) := rfl

lemma sample_ok_inv (g : FinGraph) (target alpha maxStall fuel : ℕ)
    (startNode : Option ℤ) (rng : List ℚ) (sg : SubGraph) (b : Bool)
    (h : sample g target alpha maxStall fuel startNode rng = .ok (some (sg, b))) :
    ∃ (st0 : WalkState) (rng0 : List ℚ) (st' : WalkState),
      createInitialNodeSet g startNode rng = .ok (st0, rng0) ∧
      sampleLoop g target alpha maxStall fuel st0 0 rng0 = some (st', b) ∧
      sg = inducedSubgraph g st'.visited := by
  unfold sample at h
  split at h
  · exact absurd h (by simp)
  · split at h
    · exact absurd h (by simp)
    · rename_i st0 rng0 heq
      split at h
      · exact absurd h (by simp)
      · rename_i st' stalled hloop
        rw [Except.ok.injEq, Option.some.injEq, Prod.mk.injEq] at h
        obtain ⟨hsg, hb⟩ := h
        subst hb
        exact ⟨st0, rng0, st', heq, hloop, hsg.symm⟩

lemma sampleLoop_gPath_eval :
    sampleLoop gPath 2 1 5 3 ⟨0, {0}⟩ 0 [0, 0] = some (⟨1, {1, 0}⟩, false) := by
  have h1 := sampleLoop_grow gPath 2 1 5 2 0 ⟨0, {0}⟩ [0, 0] (by decide)
    (by rw [doAStep_gPath_eval]; decide)
  rw [show (3 : ℕ) = 2 + 1 from rfl, h1, doAStep_gPath_eval]
  exact sampleLoop_done gPath 2 1 5 1 0 ⟨1, {1, 0}⟩ [] (by decide)

lemma sample_gPath_eval :
    sample gPath 2 1 5 3 (some 0) [0, 0] =
      .ok (some (inducedSubgraph gPath {1, 0}, false)) :=
  sample_eq_of_loop gPath 2 1 5 3 (some 0) [0, 0] ⟨0, {0}⟩ [0, 0] ⟨1, {1, 0}⟩ false
    (by decide) rfl sampleLoop_gPath_eval

/-- C4: every terminating `sample` run (target reached or stalled)
returns exactly the induced subgraph of the final visited set: its node
set is the final visited set, and a pair is among its edges iff it is an
edge of the original graph with both endpoints in the returned node set
(no spurious or missing edges). -/
theorem returns_induced_subgraph (g : FinGraph) (target alpha maxStall fuel : ℕ)
    (startNode : Option ℤ) (rng : List ℚ) (sg : SubGraph) (b : Bool)
    (h : sample g target alpha maxStall fuel startNode rng = .ok (some (sg, b))) :
    (∃ (st0 : WalkState) (rng0 : List ℚ) (st' : WalkState),
        createInitialNodeSet g startNode rng = .ok (st0, rng0) ∧
        sampleLoop g target alpha maxStall fuel st0 0 rng0 = some (st', b) ∧
        sg = inducedSubgraph g st'.visited ∧
        sg.nodes = st'.visited) ∧
    (∀ u v : ℕ, (u, v) ∈ sg.edges ↔
        ((u, v) ∈ g.edges ∧ u ∈ sg.nodes ∧ v ∈ sg.nodes)) := by
  obtain ⟨st0, rng0, st', hinit, hloop, hsg⟩ :=
    sample_ok_inv g target alpha maxStall fuel startNode rng sg b h
  subst hsg
  refine ⟨⟨st0, rng0, st', hinit, hloop, rfl, rfl⟩, ?_⟩
  intro u v
  simp [inducedSubgraph, and_assoc]

theorem returns_induced_subgraph_witness :
    (0, 1) ∈ (inducedSubgraph gPath {1, 0}).edges ↔
      ((0, 1) ∈ gPath.edges ∧ 0 ∈ (inducedSubgraph gPath {1, 0}).nodes ∧
        1 ∈ (inducedSubgraph gPath {1, 0}).nodes) :=
  (returns_induced_subgraph gPath 2 1 5 3 (some 0) [0, 0]
    (inducedSubgraph gPath {1, 0}) false sample_gPath_eval).2 0 1

/-- C5: with a valid configuration, sampling with an explicitly supplied
start node outside [0, node_count) fails with the out-of-range error (for
every fuel and stream, i.e. before any step is taken); with an in-range
start node, initialization produces current node = start node and visited
set = the singleton of the start node. -/
theorem start_node_validation (g : FinGraph) (target alpha maxStall fuel : ℕ)
    (s : ℤ) (rng : List ℚ) (hT : target ≤ g.n) :
    (¬ (0 ≤ s ∧ s < (g.n : ℤ)) →
        sample g target alpha maxStall fuel (some s) rng = .error .outOfRange) ∧
    ((0 ≤ s ∧ s < (g.n : ℤ)) →
        createInitialNodeSet g (some s) rng = .ok (⟨s.toNat, {s.toNat}⟩, rng)) := by
  constructor
  · intro hs
    unfold sample
    rw [if_neg (by omega : ¬ target > g.n)]
    have hinit : createInitialNodeSet g (some s) rng = .error .outOfRange := by
      rw [createInitialNodeSet_some, if_neg hs]
    rw [hinit]
  · intro hs
    rw [createInitialNodeSet_some, if_pos hs]

theorem start_node_validation_witness :
    sample gPath 2 1 5 3 (some (-1)) [] = .error .outOfRange :=
  (start_node_validation gPath 2 1 5 3 (-1) [] (by decide)).1 (by decide)

/-- C6: when the configured target node count exceeds the graph's node
count, `sample` fails with the invalid-configuration error for every
start node, stream and fuel: the check precedes initialization and the
loop, so zero steps are taken and no walk state is consulted. -/
theorem invalid_configuration_rejected (g : FinGraph)
    (target alpha maxStall fuel : ℕ) (startNode : Option ℤ) (rng : List ℚ)
    (h : g.n < target) :
    sample g target alpha maxStall fuel startNode rng =
      .error .invalidConfiguration := by
  unfold sample
  rw [if_pos (by omega : target > g.n)]

theorem invalid_configuration_rejected_witness :
    sample gPath 3 1 5 3 (some 0) [] = .error .invalidConfiguration :=
  invalid_configuration_rejected gPath 3 1 5 3 (some 0) [] (by decide)

lemma createInitialNodeSet_visited (g : FinGraph) (startNode : Option ℤ)
    (rng : List ℚ) (st0 : WalkState) (rng0 : List ℚ)
    (h : createInitialNodeSet g startNode rng = .ok (st0, rng0)) :
    st0.visited = {st0.current} := by
  cases startNode with
  | some s =>
      rw [createInitialNodeSet_some] at h
      by_cases hs : 0 ≤ s ∧ s < (g.n : ℤ)
      · rw [if_pos hs, Except.ok.injEq, Prod.mk.injEq] at h
        obtain ⟨h1, h2⟩ := h
        subst h1
        rfl
      · rw [if_neg hs] at h
        exact absurd h (by simp)
  | none =>
      rw [createInitialNodeSet_none] at h
      by_cases hn : g.n = 0
      · rw [if_pos hn] at h
        exact absurd h (by simp)
      · rw [if_neg hn, Except.ok.injEq, Prod.mk.injEq] at h
        obtain ⟨h1, h2⟩ := h
        subst h1
        rfl

/-- C9: determinism as a two-run property: two `sample` runs over
identical graphs, configurations (target, alpha, stall bound, fuel),
start nodes and random streams produce the same visited-set sequence and
the same returned result. -/
theorem deterministic_replay (g₁ g₂ : FinGraph) (t₁ t₂ a₁ a₂ m₁ m₂ f₁ f₂ : ℕ)
    (s₁ s₂ : Option ℤ) (r₁ r₂ : List ℚ) (hg : g₁ = g₂) (ht : t₁ = t₂)
    (ha : a₁ = a₂) (hm : m₁ = m₂) (hf : f₁ = f₂) (hs : s₁ = s₂) (hr : r₁ = r₂) :
    sampleVisitedTrace g₁ t₁ a₁ m₁ f₁ s₁ r₁ =
      sampleVisitedTrace g₂ t₂ a₂ m₂ f₂ s₂ r₂ ∧
    sample g₁ t₁ a₁ m₁ f₁ s₁ r₁ = sample g₂ t₂ a₂ m₂ f₂ s₂ r₂ := by
  subst hg; subst ht; subst ha; subst hm; subst hf; subst hs; subst hr
  exact ⟨rfl, rfl⟩

theorem deterministic_replay_witness :
    sampleVisitedTrace gPath 2 1 5 3 (some 0) [0, 0] =
      sampleVisitedTrace gPath 2 1 5 3 (some 0) [0, 0] ∧
    sample gPath 2 1 5 3 (some 0) [0, 0] = sample gPath 2 1 5 3 (some 0) [0, 0] :=
  deterministic_replay gPath gPath 2 2 1 1 5 5 3 3 (some 0) (some 0) [0, 0] [0, 0]
    rfl rfl rfl rfl rfl rfl rfl

/-- C10: every `sample` call that passes validation and terminates
returns a subgraph with at least one node (the initial node survives in
the result, since the initial visited set is a singleton and only grows);
and when the target is at most 1 the loop body never runs: with an
in-range explicit start node the result is exactly the induced subgraph
of the single start node, with a non-stalled exit. -/
theorem result_contains_initial_node (g : FinGraph)
    (target alpha maxStall fuel : ℕ) (startNode : Option ℤ) (rng : List ℚ) :
    (∀ (sg : SubGraph) (b : Bool),
        sample g target alpha maxStall fuel startNode rng = .ok (some (sg, b)) →
        ∃ (st0 : WalkState) (rng0 : List ℚ),
          createInitialNodeSet g startNode rng = .ok (st0, rng0) ∧
          st0.current ∈ sg.nodes ∧ sg.nodes.Nonempty) ∧
    (∀ s : ℤ, startNode = some s → target ≤ 1 → 0 ≤ s → s < (g.n : ℤ) →
        1 ≤ fuel →
        sample g target alpha maxStall fuel startNode rng =
          .ok (some (inducedSubgraph g {s.toNat}, false))) := by
  constructor
  · intro sg b h
    obtain ⟨st0, rng0, st', hinit, hloop, hsg⟩ :=
      sample_ok_inv g target alpha maxStall fuel startNode rng sg b h
    have hvis := createInitialNodeSet_visited g startNode rng st0 rng0 hinit
    have hsub :=
      (sampleLoop_invariant g target alpha maxStall fuel st0 0 rng0 st' b hloop).1
    subst hsg
    have hmem : st0.current ∈ (inducedSubgraph g st'.visited).nodes :=
      hsub (by rw [hvis]; exact Finset.mem_singleton_self _)
    exact ⟨st0, rng0, hinit, hmem, st0.current, hmem⟩
  · intro s hstart hT hs0 hsn hf
    subst hstart
    obtain ⟨f, rfl⟩ : ∃ f, fuel = f + 1 := ⟨fuel - 1, by omega⟩
    have hTn : ¬ target > g.n := by omega
    have hinit : createInitialNodeSet g (some s) rng =
        .ok (⟨s.toNat, {s.toNat}⟩, rng) := by
      rw [createInitialNodeSet_some, if_pos ⟨hs0, hsn⟩]
    have hloop : sampleLoop g target alpha maxStall (f + 1)
        ⟨s.toNat, {s.toNat}⟩ 0 rng = some (⟨s.toNat, {s.toNat}⟩, false) :=
      sampleLoop_done g target alpha maxStall f 0 ⟨s.toNat, {s.toNat}⟩ rng
        (by simp only [Finset.card_singleton]; omega)
    exact sample_eq_of_loop g target alpha maxStall (f + 1) (some s) rng
      ⟨s.toNat, {s.toNat}⟩ rng ⟨s.toNat, {s.toNat}⟩ false hTn hinit hloop

theorem result_contains_initial_node_witness :
    sample gPath 1 1 5 1 (some 0) [] =
      .ok (some (inducedSubgraph gPath {0}, false)) :=
  (result_contains_initial_node gPath 1 1 5 1 (some 0) []).2 0 rfl
    (by decide) (by decide) (by decide) (by decide)

end MHRW
